import Mathlib

/-!
Verification of the doc2quarto conversion core (`src/lib.rs`).

The three pure functions `convert_content`, `convert_frontmatter` and
`convert_admonitions` are embedded below over `String`/`List Char`,
translated line by line from the Rust source:

* `convert_admonitions` uses the regex `^:::(\w)+(.*)$` and `^:::$`.
  Note the repeated one-character capture group `(\w)+`: the Rust regex
  crate keeps only the LAST iteration of a repeated group, so `caps[1]`
  is the final word character of the run, not the whole run.  `.` does
  not match a newline, so group 2 must be newline-free for the pattern
  to accept.  This is modelled by `admonitionStartMatch`.
* `convert_frontmatter` rewrites lines whose trimmed form starts with
  `sidebar_position`, taking `line.split(':').nth(1).unwrap_or("")`,
  i.e. the text strictly between the first and the second colon.
* `convert_content` iterates over `content.lines()` with a boolean
  `in_frontmatter` flag and a line buffer.  The Rust source never
  resets the flag to `false` after the closing `---`, and never emits
  the closing delimiter; both are reproduced faithfully.
-/

namespace Doc2Quarto

/-- ASCII fragment of the regex word class `\w`: letters, digits, underscore. -/
def isWordChar (c : Char) : Bool := c.isAlphanum || c == '_'

/-- ASCII fragment of the whitespace recognised by Rust `str::trim`. -/
def isSpaceChar (c : Char) : Bool := c == ' ' || c == '\t' || c == '\r' || c == '\n'

/-- Rust `str::trim` on a character list: strip whitespace from both ends. -/
def trimList (cs : List Char) : List Char :=
  ((cs.dropWhile isSpaceChar).reverse.dropWhile isSpaceChar).reverse

/-- Rust `str::trim`. -/
def rustTrim (s : String) : String := ⟨trimList s.data⟩

/-- Capture extraction for `Regex::new(r"^:::(\w)+(.*)$")` on a line.

Returns `some (c, tail)` when the line starts with three colons followed
by at least one word character; `c` is the last character of the maximal
word-character run (the repeated group `(\w)+` retains only its final
iteration) and `tail` is what `(.*)` captured.  Since `.` never matches
`\n`, the pattern rejects any line whose remainder after the run
contains a newline. -/
def admonitionStartMatch (cs : List Char) : Option (Char × List Char) :=
  if [':', ':', ':'].isPrefixOf cs then
    match ((cs.drop 3).takeWhile isWordChar).getLast? with
    | some c =>
        if ((cs.drop 3).dropWhile isWordChar).all (fun d => !(d == '\n')) then
          some (c, (cs.drop 3).dropWhile isWordChar)
        else none
    | none => none
  else none

/-- Acceptance of the opening-marker pattern `^:::(\w)+(.*)$`, stated
independently of the capture machinery: three leading colons, a
non-empty word-character run, and a newline-free remainder. -/
def admonitionStartAccepts (cs : List Char) : Bool :=
  [':', ':', ':'].isPrefixOf cs
    && !((cs.drop 3).takeWhile isWordChar).isEmpty
    && ((cs.drop 3).dropWhile isWordChar).all (fun d => !(d == '\n'))

/-- Rust `str::to_lowercase` (ASCII fragment), mapped over the characters. -/
def rustToLowercase (s : String) : String := ⟨s.data.map Char.toLower⟩

/-- The `match admonition_type.to_lowercase().as_str()` table of the source;
the fallback returns the original (not lowercased) token. -/
def quartoType (ty : String) : String :=
  match rustToLowercase ty with
  | "note" => "note"
  | "tip" => "tip"
  | "info" => "note"
  | "caution" => "caution"
  | "warning" => "warning"
  | "danger" => "important"
  | _ => ty

/-- Embedding of `convert_admonitions` from `src/lib.rs`. -/
def convert_admonitions (line : String) : String :=
  match admonitionStartMatch line.data with
  | some (c, tail) =>
      let admonitionType : String := String.singleton c
      let title : String := ⟨trimList tail⟩
      let qt : String := quartoType admonitionType
      if title = "" then
        ":::: \x7b" ++ qt ++ "\x7d"
      else
        ":::: \x7b.callout-" ++ qt ++ "\x7d\n## " ++ title
  | none =>
      if line.data = [':', ':', ':'] then "::::" else line

/-- Rust `line.split(':')` on a character list: split at every colon;
always yields at least one (possibly empty) field. -/
def splitColon : List Char → List (List Char)
  | [] => [[]]
  | c :: rest =>
      if c = ':' then [] :: splitColon rest
      else
        match splitColon rest with
        | f :: fs => (c :: f) :: fs
        | [] => [[c]]

/-- The value emitted for a `sidebar_position` line:
`line.split(':').nth(1).unwrap_or("").trim()`. -/
def sidebarValue (cs : List Char) : List Char :=
  trimList ((splitColon cs).getD 1 [])

/-- Embedding of `convert_frontmatter` from `src/lib.rs`. -/
def convert_frontmatter : List String → String
  | [] => ""
  | l :: rest =>
      (if "sidebar_position".data.isPrefixOf (trimList l.data) then
        "order: " ++ (⟨sidebarValue l.data⟩ : String) ++ "\n"
      else
        l ++ "\n") ++ convert_frontmatter rest

/-- Splitting pass of Rust `str::lines`: cut at every `'\n'`, stripping a
`'\r'` that immediately precedes the cut; the accumulator holds the
current piece reversed. -/
def rustLinesAux (acc : List Char) : List Char → List (List Char)
  | [] => [acc.reverse]
  | c :: rest =>
      if c = '\n' then
        (match acc with
          | '\r' :: acc2 => acc2.reverse
          | _ => acc.reverse) :: rustLinesAux [] rest
      else
        rustLinesAux (c :: acc) rest

/-- Rust `str::lines`: a final empty piece (from a trailing newline, or an
empty string) is not produced. -/
def rustLines (s : String) : List String :=
  let parts := rustLinesAux [] s.data
  let parts := if parts.getLast? = some [] then parts.dropLast else parts
  parts.map String.mk

/-- The `for line in content.lines()` loop of `convert_content`, with the
mutable state (`in_frontmatter`, `frontmatter_lines`, `result`) passed
explicitly.  As in the source, the branch that closes a frontmatter
block emits `---\n` and the converted buffer but leaves `inFm` as it
was (`true`): the Rust code never resets `in_frontmatter`. -/
def convertLoop : List String → Bool → List String → String → String
  | [], _, _, result => result
  | line :: rest, inFm, fmLines, result =>
      if line = "---" then
        if !inFm then
          convertLoop rest true fmLines result
        else
          convertLoop rest inFm [] (result ++ "---\n" ++ convert_frontmatter fmLines)
      else if inFm then
        convertLoop rest inFm (fmLines ++ [line]) result
      else
        convertLoop rest inFm fmLines (result ++ convert_admonitions line ++ "\n")

/-- Embedding of `convert_content` from `src/lib.rs`. -/
def convert_content (content : String) : String :=
  convertLoop (rustLines content) false [] ""

/-- Output produced for a run of body-mode lines: each line is passed
through `convert_admonitions` and emitted with a trailing newline. -/
def bodyOut : List String → String
  | [] => ""
  | l :: rest => convert_admonitions l ++ "\n" ++ bodyOut rest

/-- Concatenation of a list of strings. -/
def joinStrings : List String → String
  | [] => ""
  | s :: rest => s ++ joinStrings rest

/-- Modelled from the spec (amended form of §4.2): per-line behaviour of
the frontmatter transformer, where the value of a rewritten
`sidebar_position` line is the text strictly between the first and the
second colon, trimmed (empty when there is no colon). -/
def frontmatterSpecLine (l : String) : String :=
  if "sidebar_position".data.isPrefixOf (trimList l.data) then
    "order: " ++
      (⟨trimList (((l.data.dropWhile (fun c => !(c == ':'))).drop 1).takeWhile
        (fun c => !(c == ':')))⟩ : String) ++ "\n"
  else
    l ++ "\n"

lemma append_empty_str (s : String) : s ++ "" = s := by
  cases s with
  | mk d => exact String.ext (by simp)

lemma empty_append_str (s : String) : "" ++ s = s := by
  cases s with
  | mk d => exact String.ext (by simp)

lemma append_assoc4 (a b c d : String) : a ++ b ++ c ++ d = a ++ (b ++ c ++ d) := by
  rw [String.append_assoc, String.append_assoc, String.append_assoc]

lemma bodyOut_cons (l : String) (rest : List String) :
    bodyOut (l :: rest) = convert_admonitions l ++ "\n" ++ bodyOut rest := rfl

/-- A word character is never trim whitespace. -/
lemma word_not_space {c : Char} (h : isWordChar c = true) : isSpaceChar c = false := by
  cases hs : isSpaceChar c with
  | false => rfl
  | true =>
      exfalso
      have : ((c = ' ' ∨ c = '\t') ∨ c = '\r') ∨ c = '\n' := by
        simpa [isSpaceChar] using hs
      rcases this with ((rfl | rfl) | rfl) | rfl <;> exact absurd h (by decide)

/-- Body-mode lines that are not `---` each contribute
`convert_admonitions line ++ "\n"` to the accumulated result. -/
lemma convertLoop_body : ∀ pre : List String, ("---" : String) ∉ pre →
    ∀ ls acc res, convertLoop (pre ++ ls) false acc res
      = convertLoop ls false acc (res ++ bodyOut pre) := by
  intro pre
  induction pre with
  | nil => intro _ ls acc res; simp [bodyOut, append_empty_str]
  | cons l t ih =>
      intro hpre ls acc res
      have hl : ¬(l = "---") := by intro he; exact hpre (by simp [he])
      have ht : ("---" : String) ∉ t := by
        intro hm; exact hpre (List.mem_cons_of_mem _ hm)
      rw [List.cons_append]
      simp only [convertLoop, if_neg hl, Bool.false_eq_true, if_false]
      rw [ih ht ls acc (res ++ convert_admonitions l ++ "\n"), bodyOut_cons, append_assoc4]

/-- Frontmatter-mode lines that are not `---` are appended to the buffer
and emit nothing. -/
lemma convertLoop_fm : ∀ fm : List String, ("---" : String) ∉ fm →
    ∀ ls acc res, convertLoop (fm ++ ls) true acc res
      = convertLoop ls true (acc ++ fm) res := by
  intro fm
  induction fm with
  | nil => intro _ ls acc res; simp
  | cons l t ih =>
      intro hfm ls acc res
      have hl : ¬(l = "---") := by intro he; exact hfm (by simp [he])
      have ht : ("---" : String) ∉ t := by
        intro hm; exact hfm (List.mem_cons_of_mem _ hm)
      rw [List.cons_append]
      simp only [convertLoop, if_neg hl, if_true]
      rw [ih ht ls (acc ++ [l]) res, List.append_assoc]
      rfl

lemma splitColon_ne_nil : ∀ cs : List Char, splitColon cs ≠ [] := by
  intro cs
  cases cs with
  | nil => simp [splitColon]
  | cons c rest =>
      simp only [splitColon]
      by_cases hc : c = ':'
      · rw [if_pos hc]; simp
      · rw [if_neg hc]
        cases hs : splitColon rest with
        | nil => simp
        | cons f fs => simp [hs]

lemma splitColon_head : ∀ cs : List Char,
    (splitColon cs).headD [] = cs.takeWhile (fun c => !(c == ':')) := by
  intro cs
  induction cs with
  | nil => rfl
  | cons c rest ih =>
      simp only [splitColon]
      by_cases hc : c = ':'
      · subst hc
        rw [if_pos rfl, List.takeWhile_cons_of_neg (by decide)]
        rfl
      · rw [if_neg hc]
        cases hs : splitColon rest with
        | nil => exact absurd hs (splitColon_ne_nil rest)
        | cons f fs =>
            rw [List.takeWhile_cons_of_pos (by simp [hc])]
            rw [hs] at ih
            simp only [hs]
            simpa using ih

lemma splitColon_getD1 : ∀ cs : List Char, (splitColon cs).getD 1 []
    = ((cs.dropWhile (fun c => !(c == ':'))).drop 1).takeWhile (fun c => !(c == ':')) := by
  intro cs
  induction cs with
  | nil => rfl
  | cons c rest ih =>
      simp only [splitColon]
      by_cases hc : c = ':'
      · subst hc
        rw [if_pos rfl, List.dropWhile_cons_of_neg (by decide)]
        cases hs : splitColon rest with
        | nil => exact absurd hs (splitColon_ne_nil rest)
        | cons f fs =>
            have hh := splitColon_head rest
            rw [hs] at hh
            simp only [hs, List.getD_cons_succ, List.getD_cons_zero]
            simpa using hh
      · rw [if_neg hc]
        cases hs : splitColon rest with
        | nil => exact absurd hs (splitColon_ne_nil rest)
        | cons f fs =>
            rw [List.dropWhile_cons_of_pos (by simp [hc])]
            rw [hs] at ih
            simp only [hs]
            simpa using ih

/-- The `split(':').nth(1)` extraction equals the text strictly between
the first and the second colon. -/
lemma sidebarValue_eq_spec (cs : List Char) :
    sidebarValue cs
      = trimList (((cs.dropWhile (fun c => !(c == ':'))).drop 1).takeWhile
          (fun c => !(c == ':'))) := by
  unfold sidebarValue
  rw [splitColon_getD1]

/-- C1: on the document `---\ntitle: X\nsidebar_position: 2\n---\n:::tip
Quick\nbody\n:::\n`, `convert_content` yields only `---\ntitle:
X\norder: 2\n`: because `in_frontmatter` is never reset after the
closing `---`, the admonition lines are buffered and dropped, so the
output is NOT followed by the claimed callout block. -/
theorem c1_end_to_end_eval :
    convert_content "---\ntitle: X\nsidebar_position: 2\n---\n:::tip Quick\nbody\n:::\n"
        = "---\ntitle: X\norder: 2\n"
      ∧ convert_content "---\ntitle: X\nsidebar_position: 2\n---\n:::tip Quick\nbody\n:::\n"
        ≠ "---\ntitle: X\norder: 2\n:::: \x7b.callout-tip\x7d\n## Quick\nbody\n::::\n" := by
  constructor <;> decide

/-- C2: after the closing `---` the machine does emit `---`, the
converted frontmatter, and clears the buffer, but it does NOT
transition back to the body state: the subsequent line `hello` is
buffered and dropped instead of being emitted through
`convert_admonitions`. -/
theorem c2_frontmatter_close_eval :
    convert_content "---\na: b\n---\nhello\n" = "---\na: b\n"
      ∧ convert_content "---\na: b\n---\nhello\n" ≠ "---\na: b\nhello\n" := by
  constructor <;> decide

/-- C3: the repeated capture group `(\w)+` retains only its last
iteration, so the type token is the final word character of the run
(`e` for `note`, `o` for `info`), not the entire run; the claimed
outputs with the full type token do not occur. -/
theorem c3_capture_eval :
    convert_admonitions ":::note Hello" = ":::: \x7b.callout-e\x7d\n## Hello"
      ∧ convert_admonitions ":::info" = ":::: \x7bo\x7d"
      ∧ convert_admonitions ":::note Hello" ≠ ":::: \x7b.callout-note\x7d\n## Hello"
      ∧ convert_admonitions ":::info" ≠ ":::: \x7bnote\x7d" := by
  exact ⟨by decide, by decide, by decide, by decide⟩

/-- C4 counterexample: on `sidebar_position: 2:3` the emitted value is
`2` (the split field between the first and second colon), not the
claimed `2:3` (everything after the first colon). -/
theorem c4_split_counterexample :
    convert_frontmatter ["sidebar_position: 2:3"] = "order: 2\n"
      ∧ convert_frontmatter ["sidebar_position: 2:3"] ≠ "order: 2:3\n" := by
  constructor <;> decide

/-- C4 amended: `convert_frontmatter` maps each line independently; a
line whose trimmed form starts with `sidebar_position` becomes
`order: v` where `v` is the text strictly between the first and the
second colon, trimmed (empty when the colon is absent); every other
line is emitted byte-for-byte followed by a newline, in order. -/
theorem c4_amended_per_line (ls : List String) :
    convert_frontmatter ls = joinStrings (ls.map frontmatterSpecLine) := by
  induction ls with
  | nil => rfl
  | cons l t ih =>
      simp only [List.map_cons, joinStrings, convert_frontmatter, frontmatterSpecLine]
      by_cases hc : "sidebar_position".data.isPrefixOf (trimList l.data) = true
      · rw [if_pos hc, if_pos hc, ih, sidebarValue_eq_spec]
      · rw [if_neg hc, if_neg hc, ih]

/-- C10: any line whose trimmed form merely starts with
`sidebar_position` (including longer keys) is rewritten to
`order: value`, and the rewritten line carries no leading
indentation. -/
theorem c10_prefix_and_indentation :
    convert_frontmatter ["sidebar_positioning: 5"] = "order: 5\n"
      ∧ convert_frontmatter ["sidebar_position_extra: 5"] = "order: 5\n"
      ∧ convert_frontmatter ["   sidebar_position: 4"] = "order: 4\n"
      ∧ ∀ (l : String) (ls : List String),
          "sidebar_position".data.isPrefixOf (trimList l.data) = true →
          convert_frontmatter (l :: ls)
            = "order: " ++ (⟨sidebarValue l.data⟩ : String) ++ "\n"
                ++ convert_frontmatter ls := by
  refine ⟨by decide, by decide, by decide, ?_⟩
  intro l ls h
  simp only [convert_frontmatter, if_pos h]

/-- Witness for C10 at a concrete input. -/
theorem c10_witness :
    convert_frontmatter ["sidebar_position_extra: 5", "x"]
      = "order: " ++ (⟨sidebarValue "sidebar_position_extra: 5".data⟩ : String) ++ "\n"
          ++ convert_frontmatter ["x"] :=
  c10_prefix_and_indentation.2.2.2 "sidebar_position_extra: 5" ["x"] (by decide)

/-- C6: when a `---` line opens a frontmatter region that is never
closed, every line after the opening delimiter is buffered and is
entirely absent from the output: the result is exactly the body
conversion of the lines before the delimiter. -/
theorem c6_unterminated_frontmatter_dropped (s : String) (pre fm : List String)
    (h : rustLines s = pre ++ "---" :: fm)
    (hpre : ("---" : String) ∉ pre) (hfm : ("---" : String) ∉ fm) :
    convert_content s = bodyOut pre := by
  unfold convert_content
  rw [h, convertLoop_body pre hpre ("---" :: fm) [] "", empty_append_str]
  simp only [convertLoop, if_pos rfl, Bool.not_false, if_true]
  have h2 := convertLoop_fm fm hfm [] [] (bodyOut pre)
  simp only [List.append_nil, List.nil_append, convertLoop] at h2
  rw [h2]

/-- Witness for C6: the buffered line `secret` does not reach the output. -/
theorem c6_witness : convert_content "x\n---\nsecret\n" = bodyOut ["x"] :=
  c6_unterminated_frontmatter_dropped "x\n---\nsecret\n" ["x"] ["secret"]
    (by decide) (by decide) (by decide)

/-- C5: closing a frontmatter block writes exactly the opening `---`
line followed by the transformed frontmatter; the closing `---`
delimiter is never written (and, because the frontmatter flag is never
reset, the remaining lines contribute nothing either). -/
theorem c5_no_closing_delimiter (s : String) (pre fm rest : List String)
    (h : rustLines s = pre ++ "---" :: fm ++ "---" :: rest)
    (hpre : ("---" : String) ∉ pre) (hfm : ("---" : String) ∉ fm)
    (hrest : ("---" : String) ∉ rest) :
    convert_content s = bodyOut pre ++ "---\n" ++ convert_frontmatter fm := by
  unfold convert_content
  rw [h, List.append_assoc,
    convertLoop_body pre hpre (("---" :: fm) ++ ("---" :: rest)) [] "", empty_append_str]
  simp only [List.cons_append, convertLoop, if_pos rfl, Bool.not_false, if_true]
  have h2 := convertLoop_fm fm hfm ("---" :: rest) [] (bodyOut pre)
  simp only [List.nil_append] at h2
  show convertLoop (fm ++ ("---" :: rest)) true [] (bodyOut pre)
    = bodyOut pre ++ "---\n" ++ convert_frontmatter fm
  rw [h2]
  simp only [convertLoop, if_pos rfl, Bool.not_true, Bool.false_eq_true, if_false]
  have h3 := convertLoop_fm rest hrest [] []
    (bodyOut pre ++ "---\n" ++ convert_frontmatter fm)
  simp only [List.append_nil, List.nil_append, convertLoop] at h3
  rw [h3]
  simp

/-- Witness for C5 at a concrete document. -/
theorem c5_witness : convert_content "intro\n---\na: 1\n---\nbody\n"
    = bodyOut ["intro"] ++ "---\n" ++ convert_frontmatter ["a: 1"] :=
  c5_no_closing_delimiter "intro\n---\na: 1\n---\nbody\n" ["intro"] ["a: 1"] ["body"]
    (by decide) (by decide) (by decide) (by decide)

/-- C8: a line that begins with four colons matches neither the
opening-marker pattern (the fourth colon is not a word character) nor
the closing-marker pattern (the line is longer than `:::`), so a
second application of `convert_admonitions` leaves it unchanged; this
covers every opening or closing line the transformer itself emits. -/
theorem c8_four_colons_fixed (s : String)
    (h : [':', ':', ':', ':'].isPrefixOf s.data = true) :
    admonitionStartMatch s.data = none
      ∧ s.data ≠ [':', ':', ':']
      ∧ convert_admonitions s = s := by
  obtain ⟨t, ht⟩ := List.isPrefixOf_iff_prefix.mp h
  have hne : s.data ≠ [':', ':', ':'] := by rw [← ht]; simp
  have hnone : admonitionStartMatch s.data = none := by
    rw [← ht]
    unfold admonitionStartMatch
    have hp : [':', ':', ':'].isPrefixOf ([':', ':', ':', ':'] ++ t) = true :=
      List.isPrefixOf_iff_prefix.mpr ⟨':' :: t, rfl⟩
    rw [if_pos hp]
    have hd : ([':', ':', ':', ':'] ++ t).drop 3 = ':' :: t := rfl
    rw [hd, List.takeWhile_cons_of_neg (by decide)]
    rfl
  refine ⟨hnone, hne, ?_⟩
  unfold convert_admonitions
  simp only [hnone]
  rw [if_neg hne]

/-- Witness for C8 on the emitted closing line `::::`. -/
theorem c8_witness : admonitionStartMatch "::::".data = none
      ∧ "::::".data ≠ [':', ':', ':']
      ∧ convert_admonitions "::::" = "::::" :=
  c8_four_colons_fixed "::::" (by decide)

/-- C7: the closing-marker rule fires exactly on the line `:::`; a bare
`:::` does not satisfy the word-character requirement of the opening
pattern, and a `:::` line with surrounding whitespace matches
neither rule and is returned unchanged. -/
theorem c7_closing_marker_exact :
    convert_admonitions ":::" = "::::"
      ∧ admonitionStartMatch ":::".data = none
      ∧ ∀ s : String, rustTrim s = ":::" → s ≠ ":::" → convert_admonitions s = s := by
  refine ⟨by decide, by decide, ?_⟩
  intro s htrim hne
  have hdata : trimList s.data = [':', ':', ':'] := by
    have h0 := congrArg String.data htrim
    simpa [rustTrim] using h0
  have hne' : s.data ≠ [':', ':', ':'] := by
    intro hd
    exact hne (String.ext (by rw [hd]))
  have hnone : admonitionStartMatch s.data = none := by
    cases hm : admonitionStartMatch s.data with
    | none => rfl
    | some p =>
        exfalso
        unfold admonitionStartMatch at hm
        by_cases hp : [':', ':', ':'].isPrefixOf s.data = true
        case neg => rw [if_neg hp] at hm; exact Option.noConfusion hm
        case pos =>
        rw [if_pos hp] at hm
        obtain ⟨t, ht⟩ := List.isPrefixOf_iff_prefix.mp hp
        rw [← ht] at hm hdata
        have hd3 : ([':', ':', ':'] ++ t).drop 3 = t := rfl
        rw [hd3] at hm
        cases t with
        | nil => simp at hm
        | cons w tw =>
            rw [List.takeWhile_cons] at hm
            by_cases hw : isWordChar w = true
            case neg => rw [if_neg hw] at hm; simp at hm
            case pos =>
            simp only [List.cons_append, List.nil_append] at hdata
            unfold trimList at hdata
            rw [List.dropWhile_cons_of_neg (by decide)] at hdata
            have hdata2 : (':' :: ':' :: ':' :: w :: tw).reverse.dropWhile isSpaceChar
                = [':', ':', ':'] := by
              have h4 := congrArg List.reverse hdata
              rw [List.reverse_reverse] at h4
              exact h4.trans (by decide)
            have hrev : (':' :: ':' :: ':' :: w :: tw).reverse
                = (w :: tw).reverse ++ [':', ':', ':'] := by
              simp [List.reverse_cons, List.append_assoc]
            rw [hrev] at hdata2
            have hnil : (w :: tw).reverse.dropWhile isSpaceChar = [] := by
              rw [List.dropWhile_append] at hdata2
              by_cases he : ((w :: tw).reverse.dropWhile isSpaceChar).isEmpty = true
              · exact List.isEmpty_iff.mp he
              · rw [if_neg he] at hdata2
                exact List.append_left_eq_self.mp hdata2
            have hall := List.dropWhile_eq_nil_iff.mp hnil
            have hwspace : isSpaceChar w = true := hall w (by simp)
            rw [word_not_space hw] at hwspace
            exact Bool.noConfusion hwspace
  unfold convert_admonitions
  simp only [hnone]
  rw [if_neg hne']

/-- Witness for C7 on a whitespace-padded closing marker. -/
theorem c7_witness : convert_admonitions " ::: " = " ::: " :=
  c7_closing_marker_exact.2.2 " ::: " (by decide) (by decide)

/-- C9: the three conversion functions are total (every input string is
mapped to some output string), and the opening-pattern capture is
defined exactly when the pattern accepts: `admonitionStartMatch`
returns a capture pair precisely on lines accepted by
`admonitionStartAccepts`. -/
theorem c9_totality (s : String) (ls : List String) :
    (∃ out, convert_content s = out)
      ∧ (∃ out, convert_frontmatter ls = out)
      ∧ (∃ out, convert_admonitions s = out)
      ∧ (admonitionStartMatch s.data).isSome = admonitionStartAccepts s.data := by
  refine ⟨⟨_, rfl⟩, ⟨_, rfl⟩, ⟨_, rfl⟩, ?_⟩
  unfold admonitionStartMatch admonitionStartAccepts
  by_cases hp : [':', ':', ':'].isPrefixOf s.data = true
  · rw [if_pos hp]
    cases hg : ((s.data.drop 3).takeWhile isWordChar).getLast? with
    | none =>
        have hnil : (s.data.drop 3).takeWhile isWordChar = [] :=
          List.getLast?_eq_none_iff.mp hg
        simp [hg, hnil, hp]
    | some c =>
        have hne2 : (s.data.drop 3).takeWhile isWordChar ≠ [] := by
          intro hq; rw [hq] at hg; exact Option.noConfusion hg
        cases ha : ((s.data.drop 3).dropWhile isWordChar).all (fun d => !(d == '\n')) with
        | true => simp [hg, ha, hp, List.isEmpty_eq_false.mpr hne2]
        | false => simp [hg, ha, hp, List.isEmpty_eq_false.mpr hne2]
  · have hp' : [':', ':', ':'].isPrefixOf s.data = false := by
      cases hq : [':', ':', ':'].isPrefixOf s.data with
      | false => rfl
      | true => exact absurd hq hp
    rw [if_neg hp]
    simp [hp']

end Doc2Quarto
